import Mathlib

/-
Verification development for the `loadit` plugin-loading library
(src/loadit/plugins_loader.py).

Modelling conventions:
* Python strings are modelled as `List Char` (`Str`), compared by code
  points exactly as CPython compares `str` values.
* Python `pathlib` / `os.path` behaviour is transcribed from the CPython
  semantics the source relies on (`Path.with_suffix("")`, `Path.suffix`,
  `str.lstrip(".")`, `str.split(sep)`), character by character.
* Fallible operations return `Except`; the loader's warning side channel
  is returned explicitly as a list of emitted warning messages.
-/

namespace Loadit

/-- Python strings, modelled as their code-point sequences. -/
abbrev Str := List Char

/-- The private-marker constant `_PRIVATE_PREFIX = "__"` of the source. -/
def privateMarker : Str := "__".data

/-- The constant `_INSTALLED_PACKAGES_DIRECTORY = "site-packages"`. -/
def installedPackagesDirectory : Str := "site-packages".data

/-- The separator `f"{_INSTALLED_PACKAGES_DIRECTORY}."` used by
`_generate_package_path` when splitting, i.e. `"site-packages."`. -/
def sitePackagesDot : Str := installedPackagesDirectory ++ ".".data

/-- The `".py"` extension recognised by `_is_acceptable_package_file`. -/
def pyExt : Str := ".py".data

/-- Leftmost occurrence of `sep` in `s`: returns the text before the
occurrence and the text after it, or `none` when `sep` does not occur.
This is the elementary step of CPython `str.split`. -/
def firstMatchSplit (sep : Str) : Str → Option (Str × Str)
  | [] => if sep = [] then some ([], []) else none
  | c :: rest =>
    if sep.isPrefixOf (c :: rest) then some ([], (c :: rest).drop sep.length)
    else
      match firstMatchSplit sep rest with
      | some (bef, aft) => some (c :: bef, aft)
      | none => none

/-- Python `s.split(sep)` for a nonempty separator: repeatedly cut at the
leftmost occurrence, scanning left to right without overlap.  The fuel
argument only bounds the number of cuts; since every cut consumes at least
one character of `s`, `s.length` cuts always suffice. -/
def pySplitFuel (sep : Str) : Nat → Str → List Str
  | 0, s => [s]
  | fuel + 1, s =>
    match firstMatchSplit sep s with
    | none => [s]
    | some (bef, aft) => bef :: pySplitFuel sep fuel aft

/-- Python `s.split(sep)` (the source only calls it with the nonempty
separator `"site-packages."`). -/
def pySplit (sep s : Str) : List Str :=
  if sep = [] then [s] else pySplitFuel sep s.length s

/-- `true` iff `needle` occurs somewhere inside `hay` (Python `in` on
strings). -/
def containsSub (needle : Str) : Str → Bool
  | [] => needle.isEmpty
  | c :: rest => needle.isPrefixOf (c :: rest) || containsSub needle rest

/-- Split `name` at its last `'.'` (CPython `name.rfind('.')`): the text
before and after that dot, or `none` when no dot occurs.  The recursion
prefers a split found in the tail, so the returned dot is the last one. -/
def splitAtLastDot : Str → Option (Str × Str)
  | [] => none
  | c :: rest =>
    match splitAtLastDot rest with
    | some (b, a) => some (c :: b, a)
    | none => if c = '.' then some ([], rest) else none

/-- CPython `pathlib` suffix rule: the extension of `name` runs from its
last `'.'`, provided that dot is neither the first nor the last character
of the name (`0 < i < len(name) - 1`), so `".py"` and `"a."` have no
suffix. -/
def pySuffix (name : Str) : Str :=
  match splitAtLastDot name with
  | none => []
  | some (b, a) => if b = [] ∨ a = [] then [] else '.' :: a

/-- CPython `Path(name).with_suffix("")` on the final component: drop the
suffix recognised by `pySuffix`, if any. -/
def stemOf (name : Str) : Str :=
  match splitAtLastDot name with
  | none => name
  | some (b, a) => if b = [] ∨ a = [] then name else b

/-- Joining path segments with `'.'`.  In the source this is the
composition of `Path.as_posix` (join with `'/'`) and
`str.replace("/", ".")` in `_generate_package_path`. -/
def joinDots : List Str → Str
  | [] => []
  | [s] => s
  | s :: s' :: rest => s ++ '.' :: joinDots (s' :: rest)

/-- `PluginsLoader._generate_package_path`: given the directory part of a
file's path relative to the current working directory (as segments) and
the file's name, produce the dotted module identifier: remove the
extension of the final component (`with_suffix("")`), join the segments
with `'.'` (`as_posix` + `replace("/", ".")`), strip leading dots
(`lstrip(".")`), and keep only what follows the last occurrence of
`"site-packages."` (`split(...)[-1]`). -/
def generatePackagePath (dirSegs : List Str) (fileName : Str) : Str :=
  let stem := stemOf fileName
  let joined := joinDots (dirSegs ++ [stem])
  let stripped := joined.dropWhile (fun c => c = '.')
  (pySplit sitePackagesDot stripped).getLastD []

/-! ## String ordering (CPython compares `str` by code points) -/

/-- Lexicographic `<=` on code-point sequences, exactly CPython's string
comparison used by `list.sort(key=lambda pair: pair[0])` inside
`inspect.getmembers`. -/
def strLe : Str → Str → Bool
  | [], _ => true
  | _ :: _, [] => false
  | a :: as, b :: bs => if a < b then true else if a = b then strLe as bs else false

/-! ## The member universe

`_load_plugins` stores candidate plugin values in a plain list and tests
membership with Python `in`, which compares elements with
`PyObject_RichCompareBool(_, _, Py_EQ)`: identical objects compare equal
without calling `__eq__`; otherwise `__eq__` is consulted.  We model a
runtime value by its identity (`id`, the object address) together with
the value its `__eq__` compares by (`eqKey`); unrelated objects simply
carry distinct `eqKey`s. -/

structure PyObj where
  id : Nat
  eqKey : Nat
deriving DecidableEq, Repr

/-- Python `==` between two runtime objects as evaluated by
`PyObject_RichCompareBool`: identity short-circuit, then `__eq__`. -/
def pyObjEq (a b : PyObj) : Bool := a.id == b.id || a.eqKey == b.eqKey

/-- Python `x in l` for a list `l`: a linear scan comparing with `==`. -/
def pyIn {α : Type} (eqB : α → α → Bool) (x : α) (l : List α) : Bool :=
  l.any (fun e => eqB e x)

/-! ## Modules and `inspect.getmembers` -/

/-- A loaded module handle: its top-level attributes in definition order
(attribute names are unique in a real module namespace). -/
structure PyModule (α : Type) where
  members : List (Str × α)
deriving Repr

/-- Name ordering on attribute pairs, the sort key of
`inspect.getmembers`. -/
def keyLe {α : Type} (a b : Str × α) : Prop := strLe a.1 b.1 = true

instance {α : Type} : DecidableRel (keyLe (α := α)) := fun a b => by
  unfold keyLe; infer_instance

/-- `inspect.getmembers(module, predicate)`: collect the `(name, value)`
attribute pairs whose value passes the predicate and return them sorted
by name (`results.sort(key=lambda pair: pair[0])`; CPython's sort is
stable and attribute names are unique, so the name-sorted permutation is
unique and any stable sort realises it). -/
def getmembers {α : Type} (m : PyModule α) (pred : α → Bool) : List (Str × α) :=
  List.insertionSort keyLe (m.members.filter (fun p => pred p.2))

/-! ## Load outcomes and the sweep of `_load_plugins` -/

/-- The outcome of `importlib.import_module` on one discovered package
path: either a loaded module handle, or a `ModuleNotFoundError` whose
`name` attribute is `None` (`none`) or a string (possibly empty — both
falsy values fail the source's `if not e.name` test). -/
inductive LoadResult (α : Type) where
  | loaded (m : PyModule α)
  | importError (name : Option Str)
deriving Repr

/-- Errors propagated out of the loader. -/
inductive PyError where
  | reraisedImportError (name : Option Str)
  | aggregateMissing (message : Str)
deriving DecidableEq, Repr

/-- `if e.name not in missing_modules: missing_modules.append(e.name)`. -/
def insertNewStr (missing : List Str) (n : Str) : List Str :=
  if n ∈ missing then missing else missing ++ [n]

/-- The body of the member loop of `_load_plugins`:
`if plugin not in plugins: plugins.append(plugin)`. -/
def insertPlugin {α : Type} (eqB : α → α → Bool) (plugins : List α) (x : α) : List α :=
  if pyIn eqB x plugins then plugins else plugins ++ [x]

/-- The main loop of `_load_plugins`, with the two accumulators
(`plugins`, `missing_modules`) explicit.  For each package path in
sweep order: on `ModuleNotFoundError` with falsy `name`, re-raise
immediately; with a real name, record it (deduplicated, insertion
order) and `continue`; on success, append each `getmembers` value that
is not already `in plugins`. -/
def loadPluginsGo {α : Type} (eqB : α → α → Bool) (pred : α → Bool) :
    List (LoadResult α) → List α → List Str → Except PyError (List α × List Str)
  | [], plugins, missing => .ok (plugins, missing)
  | .importError n :: rest, plugins, missing =>
    match n with
    | none => .error (.reraisedImportError none)
    | some nm =>
      if nm = [] then .error (.reraisedImportError (some []))
      else loadPluginsGo eqB pred rest plugins (insertNewStr missing nm)
  | .loaded m :: rest, plugins, missing =>
    loadPluginsGo eqB pred rest
      ((getmembers m pred).foldl (fun acc p => insertPlugin eqB acc p.2) plugins)
      missing

/-- `os.linesep` on the host platform (Linux). -/
def lineSep : Str := ['\n']

/-- Python `", ".join(missing_modules)`. -/
def joinCommaSpace : List Str → Str
  | [] => []
  | [s] => s
  | s :: s' :: rest => s ++ ", ".data ++ joinCommaSpace (s' :: rest)

/-- The aggregate message built by `_handle_missing_modules`:
`"WARNING: Failed searching plugins in the following imported modules: "`
followed by the comma-separated missing names, a period, `os.linesep`,
and the `pip3 install` suggestion. -/
def warningMessage (missing : List Str) : Str :=
  let joined := joinCommaSpace missing
  "WARNING: Failed searching plugins in the following imported modules: ".data
    ++ joined ++ ".".data ++ lineSep
    ++ "Consider running the following command: 'pip3 install ".data
    ++ joined ++ "'.".data

/-- `_load_plugins` followed by `_handle_missing_modules`: when any
missing modules were collected, either raise the aggregate
`ModuleNotFoundError` (strict mode) or log one warning and still return
the collected plugins.  The second component of a successful result is
the list of warning messages emitted on the side channel. -/
def loadPlugins {α : Type} (eqB : α → α → Bool) (raiseOnMissing : Bool)
    (pred : α → Bool) (rs : List (LoadResult α)) :
    Except PyError (List α × List Str) :=
  match loadPluginsGo eqB pred rs [] [] with
  | .error e => .error e
  | .ok (plugins, missing) =>
    if missing = [] then .ok (plugins, [])
    else if raiseOnMissing then .error (.aggregateMissing (warningMessage missing))
    else .ok (plugins, [warningMessage missing])

/-! ## Inclusion policy and path discovery

`_generate_packages_paths_from_module` iterates `os.walk`.  Two facts
about the source are load-bearing for the embedding:
* a Python `for` statement captures its iterator once, so the rebinding
  `directory_tree = chain(directory_tree, subdirectories_trees)` inside
  the loop body never affects the iteration in progress — the chained,
  `_is_acceptable_package_subdirectory`-filtered walks are never
  consumed;
* `os.walk` is itself fully recursive and the loop never prunes its
  `package_subdirectories` list in place, so every directory of the tree
  is yielded, top-down.
The effective traversal is therefore exactly `os.walk`'s enumeration,
with the `Path(package_directory).name.endswith(("__", "."))` test
skipping only the files of a matching directory, not its subtree. -/

/-- `PluginsLoader._is_acceptable_package_file`: recognised `.py` suffix,
not private-marker-prefixed, and matching the configured file pattern
(`re.match` of the default `".*"` pattern accepts everything). -/
def isAcceptablePackageFile (filePat : Str → Bool) (f : Str) : Bool :=
  pySuffix f == pyExt && !(privateMarker.isPrefixOf f) && filePat f

/-- `PluginsLoader._is_acceptable_package_subdirectory`: not
private-marker-prefixed and matching the configured directory pattern.
(Only ever called from `_generate_subdirectories_trees`, whose result is
never consumed — see the section comment.) -/
def isAcceptablePackageSubdirectory (dirPat : Str → Bool) (d : Str) : Bool :=
  !(privateMarker.isPrefixOf d) && dirPat d

/-- A directory tree on disk: name, files, subdirectories. -/
inductive FTree where
  | mk (name : Str) (files : List Str) (subdirs : List FTree)

/-- Name of a directory tree node. -/
def FTree.name : FTree → Str
  | .mk n _ _ => n

/-- One `os.walk` entry: `(dirpath, dirnames, filenames)`, with the
directory path kept as segments. -/
abbrev WalkEntry := List Str × List Str × List Str

mutual

/-- `os.walk` on one directory, top-down: the directory itself, then its
subdirectories in order, recursively. -/
def osWalkT (parentSegs : List Str) : FTree → List WalkEntry
  | .mk n fs ds => (parentSegs ++ [n], ds.map FTree.name, fs) :: osWalkL (parentSegs ++ [n]) ds

/-- `os.walk` continued over a list of sibling subdirectories. -/
def osWalkL (parentSegs : List Str) : List FTree → List WalkEntry
  | [] => []
  | t :: ts => osWalkT parentSegs t ++ osWalkL parentSegs ts

end

/-- `PluginsLoader._generate_packages_paths_from_files`: keep the
acceptable files of a directory and derive each one's dotted package
path. -/
def generatePackagesPathsFromFiles (filePat : Str → Bool)
    (dirSegs : List Str) (files : List Str) : List Str :=
  (files.filter (isAcceptablePackageFile filePat)).map (generatePackagePath dirSegs)

/-- `PluginsLoader._generate_packages_paths_from_module` on a package
rooted at `parentSegs ++ [root.name]` relative to the current working
directory: fold over the `os.walk` entries (see the section comment for
why the chained subtrees never contribute); skip the files of a
directory whose name ends with `"__"` or `"."`; accumulate the derived
package paths as a set (modelled as first-seen-order insertion). -/
def generatePackagesPathsFromModule (filePat : Str → Bool)
    (parentSegs : List Str) (root : FTree) : List Str :=
  (osWalkT parentSegs root).foldl
    (fun acc e =>
      let dirName := e.1.getLastD []
      if privateMarker.isSuffixOf dirName || ".".data.isSuffixOf dirName then acc
      else (generatePackagesPathsFromFiles filePat e.1 e.2.2).foldl insertNewStr acc)
    []

/-! ## Module import (top-level evaluation of `plugins_loader.py`)

Claim C2 is about evaluating the module's own top level.  A Python
module body executes statement by statement; evaluating a `def` binds
the function name after evaluating, in the enclosing scope, its default
values and its annotation expressions — a name unbound at that moment
raises `NameError`.  We model each top-level statement by the global
names its definition-time evaluation reads and the names it binds. -/

/-- One top-level statement of the module: the global names read during
its (definition-time) evaluation, and the names bound on success. -/
structure PyTopStmt where
  refs : List Str
  binds : List Str

/-- Names available without any import (builtins, plus the implicit
module global `__name__`). -/
def builtinNames : List Str :=
  ["bool".data, "str".data, "None".data, "False".data, "True".data,
   "__name__".data]

/-- Execute top-level statements in order; the first unresolvable name
raises `NameError` carrying that name. -/
def evalModuleStmts : List PyTopStmt → List Str → Except Str (List Str)
  | [], env => .ok env
  | st :: rest, env =>
    match st.refs.find? (fun r => !(env.contains r || builtinNames.contains r)) with
    | some r => .error r
    | none => evalModuleStmts rest (env ++ st.binds)

/-- The names imported from `typing` on lines 9–10 of the source. -/
def typingImportNames : List Str :=
  ["Any".data, "Callable".data, "Final".data, "Iterator".data, "List".data,
   "Pattern".data, "Set".data, "Tuple".data, "Type".data, "TypeVar".data,
   "Union".data]

/-- The global names read when the `def load_subclasses` statement is
evaluated: its default expressions (`False`, `re.compile(...)` twice,
`None`) and then its annotations in order (`Type[T]`, `Union[...]`,
`bool`, `Pattern[str]` twice, `Optional[Set[ModuleType]]`,
`List[Type[T]]`). -/
def loadSubclassesDefRefs : List Str :=
  ["False".data, "re".data, "re".data, "None".data,
   "Type".data, "T".data, "Union".data, "ModuleType".data, "Set".data,
   "bool".data, "Pattern".data, "str".data, "Pattern".data, "str".data,
   "Optional".data, "Set".data, "ModuleType".data,
   "List".data, "Type".data, "T".data]

/-- The top level of `plugins_loader.py`, statement by statement:
imports (lines 1–12), `__all__`, `logger`, `T`, the two path aliases,
the two `Final` constants, then the `def`s and the class definition. -/
def pluginsLoaderTopLevel : List PyTopStmt :=
  [ ⟨[], ["importlib".data, "inspect".data, "logging".data, "os".data,
          "re".data, "chain".data, "Path".data, "ModuleType".data]
         ++ typingImportNames ++ ["BaseModel".data]⟩,
    ⟨[], ["__all__".data]⟩,
    ⟨["logging".data, "__name__".data], ["logger".data]⟩,
    ⟨["TypeVar".data], ["T".data]⟩,
    ⟨["Union".data, "str".data, "Path".data], ["FileSystemPath".data]⟩,
    ⟨["Union".data, "str".data, "Path".data], ["PackagePath".data]⟩,
    ⟨["Final".data], ["_PRIVATE_PREFIX".data]⟩,
    ⟨["Final".data], ["_INSTALLED_PACKAGES_DIRECTORY".data]⟩,
    ⟨loadSubclassesDefRefs, ["load_subclasses".data]⟩,
    ⟨["False".data, "re".data, "re".data, "None".data,
      "ModuleType".data, "Set".data, "Union".data, "Callable".data,
      "bool".data, "Pattern".data, "str".data,
      "List".data, "Type".data, "T".data], ["load".data]⟩,
    ⟨["False".data, "re".data, "re".data, "None".data,
      "ModuleType".data, "Set".data, "Union".data, "bool".data,
      "Pattern".data, "str".data, "Optional".data, "Callable".data],
     ["_create_plugins_loader".data]⟩,
    ⟨["BaseModel".data], ["PluginsLoader".data]⟩,
    ⟨["Any".data, "Type".data, "T".data, "bool".data],
     ["_is_member_subclass_of_ancestor".data]⟩ ]

/-- Importing `loadit.plugins_loader`: run the module top level in an
initially empty global namespace. -/
def importPluginsLoaderModule : Except Str (List Str) :=
  evalModuleStmts pluginsLoaderTopLevel []

/-! ## The class universe for the built-in subclass predicate

A tiny universe realising the spec's example: `class B(A)`,
`class C(B)`, and `A` itself. -/

/-- Class identifiers of the example universe. -/
inductive KCls where
  | A
  | B
  | C
deriving DecidableEq, Repr

/-- Python `issubclass` truth for the example hierarchy `B(A)`, `C(B)`:
the reflexive-transitive ancestor chain of each class. -/
def clsAncestors : KCls → List KCls
  | .A => [.A]
  | .B => [.B, .A]
  | .C => [.C, .B, .A]

/-- A module-level value: a class object or a non-class object. -/
inductive PVal where
  | cls (k : KCls)
  | obj (o : PyObj)
deriving DecidableEq, Repr

/-- `inspect.isclass`. -/
def pvalIsClass : PVal → Bool
  | .cls _ => true
  | .obj _ => false

/-- Python `==` on these values (class objects compare by identity). -/
def pvalEq (a b : PVal) : Bool := a == b

/-- Python `issubclass` (only ever reached on class operands, guarded by
`inspect.isclass` in the source). -/
def pyIssubclass : PVal → PVal → Bool
  | .cls k, .cls j => (clsAncestors k).contains j
  | _, _ => false

/-- `_is_member_subclass_of_ancestor`:
`inspect.isclass(member) and member != ancestor_class and
issubclass(member, ancestor_class)`. -/
def isMemberSubclassOfAncestor (member ancestor : PVal) : Bool :=
  pvalIsClass member && !(pvalEq member ancestor) && pyIssubclass member ancestor

/-! ## Specification-side definitions (for refinement comparisons) -/

/-- Spec 4.5, as written: duplicate suppression by identity/reference
comparison over the flat stream of matching symbols, keeping first
occurrences in order. -/
def identityDedupFirst (stream : List PyObj) : List PyObj :=
  stream.foldl
    (fun acc x => if acc.any (fun e => e.id == x.id) then acc else acc ++ [x]) []

/-- First-seen-order duplicate suppression over a flat stream, using the
code's Python `in` membership test. -/
def dedupFoldl {α : Type} (eqB : α → α → Bool) (stream : List α) : List α :=
  stream.foldl (insertPlugin eqB) []

/-- The flat stream of matching member values across the successfully
loaded modules, in sweep order (spec 4.5 "all Member Filter outputs
across all successfully loaded modules, in the order modules were
processed"). -/
def memberStream {α : Type} (pred : α → Bool) (rs : List (LoadResult α)) : List α :=
  (rs.filterMap (fun r =>
    match r with
    | .loaded m => some ((getmembers m pred).map (fun p => p.2))
    | .importError _ => none)).flatten

/-- The missing-dependency names carried by the failures of a sweep, in
sweep order, with multiplicity (truthy names only). -/
def failNames {α : Type} (rs : List (LoadResult α)) : List Str :=
  rs.filterMap (fun r =>
    match r with
    | .importError (some n) => if n = [] then none else some n
    | _ => none)

/-- A load outcome whose `ModuleNotFoundError` has a falsy `name`
(`None` or the empty string): the source re-raises it. -/
def isFatal {α : Type} : LoadResult α → Bool
  | .importError none => true
  | .importError (some n) => n.isEmpty
  | .loaded _ => false

/-- Deduplicated, insertion-ordered collection of a name list
(spec 3 `MissingModuleSet`). -/
def dedupFirstStr (l : List Str) : List Str := l.foldl insertNewStr []

/-- The whole sweep runs to completion: no `ModuleNotFoundError` with a
falsy `name` occurs among the load outcomes. -/
def sweepCompletes {α : Type} (rs : List (LoadResult α)) : Bool :=
  rs.all (fun r => !isFatal r)

/-- A load outcome that is a successfully loaded module. -/
def isLoadedB {α : Type} : LoadResult α → Bool
  | .loaded _ => true
  | .importError _ => false

/-- Boolean form of the segment hypotheses of the amended C4 claim:
every path segment is nonempty and dot-free. -/
def allGoodB (l : List Str) : Bool :=
  l.all (fun s => !s.isEmpty && !s.contains '.')

/-! ## Lemmas about the sweep -/

theorem loadPluginsGo_append {α : Type} (eqB : α → α → Bool) (pred : α → Bool) :
    ∀ (xs ys : List (LoadResult α)) (p : List α) (m : List Str),
      loadPluginsGo eqB pred (xs ++ ys) p m =
        (loadPluginsGo eqB pred xs p m).bind
          (fun pm => loadPluginsGo eqB pred ys pm.1 pm.2) := by
  intro xs
  induction xs with
  | nil => intro ys p m; simp [loadPluginsGo, Except.bind]
  | cons r rest ih =>
    intro ys p m
    cases r with
    | loaded mod => simpa [loadPluginsGo] using ih ys _ m
    | importError n =>
      cases n with
      | none => simp [loadPluginsGo, Except.bind]
      | some nm =>
        by_cases hnm : nm = []
        · simp [loadPluginsGo, hnm, Except.bind]
        · simpa [loadPluginsGo, hnm] using ih ys p _

theorem loadPluginsGo_eq_ok {α : Type} (eqB : α → α → Bool) (pred : α → Bool) :
    ∀ (rs : List (LoadResult α)) (p : List α) (m : List Str),
      sweepCompletes rs = true →
      loadPluginsGo eqB pred rs p m =
        .ok ((memberStream pred rs).foldl (insertPlugin eqB) p,
             (failNames rs).foldl insertNewStr m) := by
  intro rs
  induction rs with
  | nil => intro p m _; simp [loadPluginsGo, memberStream, failNames]
  | cons r rest ih =>
    intro p m hc
    rw [sweepCompletes, List.all_cons, Bool.and_eq_true] at hc
    cases r with
    | loaded mod =>
      rw [loadPluginsGo, ih _ _ hc.2]
      simp [memberStream, failNames, List.filterMap_cons, List.foldl_map]
    | importError n =>
      cases n with
      | none => simp [isFatal] at hc
      | some nm =>
        have hnm : nm ≠ [] := by
          simpa [isFatal, List.isEmpty_iff] using hc.1
        rw [loadPluginsGo]
        rw [if_neg hnm, ih _ _ hc.2]
        simp [memberStream, failNames, List.filterMap_cons, hnm]

theorem mem_insertNewStr (m : List Str) (a n : Str) :
    n ∈ insertNewStr m a ↔ n ∈ m ∨ n = a := by
  unfold insertNewStr
  by_cases h : a ∈ m
  · simp only [if_pos h]
    constructor
    · exact Or.inl
    · rintro (hn | rfl)
      · exact hn
      · exact h
  · simp [if_neg h]

theorem mem_foldl_insertNewStr :
    ∀ (l m : List Str) (n : Str),
      n ∈ l.foldl insertNewStr m ↔ n ∈ m ∨ n ∈ l := by
  intro l
  induction l with
  | nil => simp
  | cons a t ih =>
    intro m n
    rw [List.foldl_cons, ih, mem_insertNewStr]
    constructor
    · rintro ((h | rfl) | h)
      · exact Or.inl h
      · exact Or.inr (List.mem_cons_self _ _)
      · exact Or.inr (List.mem_cons_of_mem _ h)
    · rintro (h | h)
      · exact Or.inl (Or.inl h)
      · rcases List.mem_cons.mp h with rfl | h
        · exact Or.inl (Or.inr rfl)
        · exact Or.inr h

theorem mem_dedupFirstStr (l : List Str) (n : Str) :
    n ∈ dedupFirstStr l ↔ n ∈ l := by
  unfold dedupFirstStr
  rw [mem_foldl_insertNewStr]
  simp

theorem dedupFirstStr_ne_nil (l : List Str) (h : l ≠ []) :
    dedupFirstStr l ≠ [] := by
  obtain ⟨a, t, rfl⟩ := List.exists_cons_of_ne_nil h
  intro hnil
  have : a ∈ dedupFirstStr (a :: t) := (mem_dedupFirstStr _ _).mpr (List.mem_cons_self _ _)
  rw [hnil] at this
  exact List.not_mem_nil a this

theorem foldl_insertPlugin_sublist {α : Type} (eqB : α → α → Bool) :
    ∀ (t acc : List α), ∃ u, t.foldl (insertPlugin eqB) acc = acc ++ u ∧ u.Sublist t := by
  intro t
  induction t with
  | nil => intro acc; exact ⟨[], by simp⟩
  | cons x r ih =>
    intro acc
    rw [List.foldl_cons]
    unfold insertPlugin
    by_cases h : pyIn eqB x acc = true
    · obtain ⟨u, hu, hsub⟩ := ih acc
      rw [if_pos h]
      exact ⟨u, hu, hsub.cons x⟩
    · obtain ⟨u, hu, hsub⟩ := ih (acc ++ [x])
      rw [if_neg h]
      exact ⟨x :: u, by simpa using hu, hsub.cons₂ x⟩

theorem foldl_insertPlugin_pairwise {α : Type} (eqB : α → α → Bool) :
    ∀ (t acc : List α),
      acc.Pairwise (fun a b => eqB a b = false) →
      (t.foldl (insertPlugin eqB) acc).Pairwise (fun a b => eqB a b = false) := by
  intro t
  induction t with
  | nil => intro acc h; exact h
  | cons x r ih =>
    intro acc h
    rw [List.foldl_cons]
    unfold insertPlugin
    by_cases hx : pyIn eqB x acc = true
    · rw [if_pos hx]; exact ih acc h
    · rw [if_neg hx]
      refine ih (acc ++ [x]) ?_
      rw [List.pairwise_append]
      refine ⟨h, List.pairwise_singleton _ _, ?_⟩
      intro a ha b hb
      have hbx : b = x := List.mem_singleton.mp hb
      rw [hbx]
      have : ¬ List.any acc (fun e => eqB e x) = true := by
        simpa [pyIn] using hx
      rw [List.any_eq_true] at this
      push_neg at this
      simpa using this a ha

theorem sweepCompletes_of_all_loaded {α : Type} (rs : List (LoadResult α))
    (h : rs.all isLoadedB = true) : sweepCompletes rs = true := by
  rw [sweepCompletes, List.all_eq_true]
  rw [List.all_eq_true] at h
  intro r hr
  have := h r hr
  cases r with
  | loaded m => rfl
  | importError n => simp [isLoadedB] at this

theorem failNames_nil_of_all_loaded {α : Type} (rs : List (LoadResult α))
    (h : rs.all isLoadedB = true) : failNames rs = [] := by
  rw [failNames, List.filterMap_eq_nil_iff]
  rw [List.all_eq_true] at h
  intro r hr
  have := h r hr
  cases r with
  | loaded m => rfl
  | importError n => simp [isLoadedB] at this

theorem failNames_append {α : Type} (xs ys : List (LoadResult α)) :
    failNames (xs ++ ys) = failNames xs ++ failNames ys := by
  simp [failNames, List.filterMap_append]

theorem memberStream_append {α : Type} (pred : α → Bool) (xs ys : List (LoadResult α)) :
    memberStream pred (xs ++ ys) = memberStream pred xs ++ memberStream pred ys := by
  simp [memberStream, List.filterMap_append]

theorem memberStream_importError_cons {α : Type} (pred : α → Bool)
    (n : Option Str) (rs : List (LoadResult α)) :
    memberStream pred (.importError n :: rs) = memberStream pred rs := by
  simp [memberStream, List.filterMap_cons]

theorem failNames_importError_cons {α : Type} (n : Str) (hn : n ≠ [])
    (rs : List (LoadResult α)) :
    failNames (.importError (some n) :: rs) = n :: failNames rs := by
  simp [failNames, List.filterMap_cons, hn]

/-! ## Lemmas about substring occurrence and the warning message -/

theorem isPrefixOf_self_append (n b : Str) : n.isPrefixOf (n ++ b) = true := by
  induction n with
  | nil => simp [List.isPrefixOf]
  | cons c t ih => simp [List.isPrefixOf, ih]

theorem containsSub_self_append (n b : Str) : containsSub n (n ++ b) = true := by
  cases n with
  | nil =>
    cases b with
    | nil => rfl
    | cons c t => simp [containsSub, List.isPrefixOf]
  | cons c t =>
    simp [containsSub, isPrefixOf_self_append (c :: t) b]

theorem containsSub_append_mid :
    ∀ (a n b : Str), containsSub n (a ++ n ++ b) = true := by
  intro a n b
  induction a with
  | nil => simpa using containsSub_self_append n b
  | cons c a ih =>
    simp only [List.cons_append, containsSub, Bool.or_eq_true]
    exact Or.inr ih

theorem mem_joinCommaSpace_decomp :
    ∀ (l : List Str) (n : Str), n ∈ l → ∃ x y, joinCommaSpace l = x ++ n ++ y := by
  intro l
  induction l with
  | nil => intro n hn; exact absurd hn (List.not_mem_nil n)
  | cons s t ih =>
    intro n hn
    cases t with
    | nil =>
      rcases List.mem_singleton.mp hn with rfl
      exact ⟨[], [], by simp [joinCommaSpace]⟩
    | cons s' t' =>
      rcases List.mem_cons.mp hn with rfl | hn'
      · exact ⟨[], ", ".data ++ joinCommaSpace (s' :: t'), by simp [joinCommaSpace]⟩
      · obtain ⟨x, y, hxy⟩ := ih n hn'
        refine ⟨s ++ ", ".data ++ x, y, ?_⟩
        simp [joinCommaSpace, hxy]

theorem containsSub_warningMessage (missing : List Str) (n : Str)
    (h : n ∈ missing) : containsSub n (warningMessage missing) = true := by
  obtain ⟨x, y, hxy⟩ := mem_joinCommaSpace_decomp missing n h
  unfold warningMessage
  rw [hxy]
  have :
      "WARNING: Failed searching plugins in the following imported modules: ".data
        ++ (x ++ n ++ y) ++ ".".data ++ lineSep
        ++ "Consider running the following command: 'pip3 install ".data
        ++ (x ++ n ++ y) ++ "'.".data
      = ("WARNING: Failed searching plugins in the following imported modules: ".data ++ x)
        ++ n
        ++ (y ++ ".".data ++ lineSep
            ++ "Consider running the following command: 'pip3 install ".data
            ++ (x ++ n ++ y) ++ "'.".data) := by
    simp
  rw [this]
  exact containsSub_append_mid _ n _

/-! ## Lemmas about `_generate_package_path` -/

theorem splitAtLastDot_dotfree : ∀ (d : Str), '.' ∉ d → splitAtLastDot d = none := by
  intro d
  induction d with
  | nil => intro _; rfl
  | cons c t ih =>
    intro h
    have hc : c ≠ '.' := fun hc => h (hc ▸ List.mem_cons_self c t)
    have ht : '.' ∉ t := fun ht => h (List.mem_cons_of_mem c ht)
    simp [splitAtLastDot, ih ht, hc]

theorem splitAtLastDot_append_dotfree :
    ∀ (l d : Str), '.' ∉ d → splitAtLastDot (l ++ '.' :: d) = some (l, d) := by
  intro l d hd
  induction l with
  | nil => simp [splitAtLastDot, splitAtLastDot_dotfree d hd]
  | cons c t ih => simp [splitAtLastDot, ih]

theorem stemOf_append_pyExt (stem : Str) (h : stem ≠ []) :
    stemOf (stem ++ pyExt) = stem := by
  have hpy : '.' ∉ ['p', 'y'] := by decide
  have : stem ++ pyExt = stem ++ '.' :: ['p', 'y'] := rfl
  rw [stemOf, this, splitAtLastDot_append_dotfree stem ['p', 'y'] hpy]
  simp [h]

theorem joinDots_cons_exists (s : Str) (rest : List Str) :
    ∃ t, joinDots (s :: rest) = s ++ t := by
  cases rest with
  | nil => exact ⟨[], by simp [joinDots]⟩
  | cons s' t' => exact ⟨'.' :: joinDots (s' :: t'), rfl⟩

theorem dropWhile_dots_joinDots (segs : List Str)
    (hne : segs ≠ [])
    (hg : ∀ s ∈ segs, s ≠ [] ∧ '.' ∉ s) :
    (joinDots segs).dropWhile (fun c => c = '.') = joinDots segs := by
  obtain ⟨s, rest, rfl⟩ := List.exists_cons_of_ne_nil hne
  obtain ⟨hs, hsd⟩ := hg s (List.mem_cons_self s rest)
  obtain ⟨c, s', rfl⟩ := List.exists_cons_of_ne_nil hs
  have hc : c ≠ '.' := fun hc => hsd (hc ▸ List.mem_cons_self c s')
  obtain ⟨t, ht⟩ := joinDots_cons_exists (c :: s') rest
  rw [ht]
  simp [List.dropWhile, hc]

theorem pySplit_of_no_match (sep s : Str)
    (h : firstMatchSplit sep s = none) : pySplit sep s = [s] := by
  unfold pySplit
  by_cases hsep : sep = []
  · simp [hsep]
  · rw [if_neg hsep]
    cases hl : s.length with
    | zero => rfl
    | succ k => simp [pySplitFuel, h]

theorem append_dot_inj :
    ∀ (a b r1 r2 : Str), '.' ∉ a → '.' ∉ b →
      a ++ '.' :: r1 = b ++ '.' :: r2 → a = b ∧ r1 = r2 := by
  intro a
  induction a with
  | nil =>
    intro b r1 r2 _ hb he
    cases b with
    | nil => simpa using he
    | cons d b' =>
      exfalso
      have : '.' = d := by simpa using congrArg (fun l => l.headI) he
      exact hb (this ▸ List.mem_cons_self d b')
  | cons c a' ih =>
    intro b r1 r2 ha hb he
    cases b with
    | nil =>
      exfalso
      have : c = '.' := by simpa using congrArg (fun l => l.headI) he
      exact ha (this ▸ List.mem_cons_self c a')
    | cons d b' =>
      have hcd : c = d := by simpa using congrArg (fun l => l.headI) he
      have ha' : '.' ∉ a' := fun h => ha (List.mem_cons_of_mem c h)
      have hb' : '.' ∉ b' := fun h => hb (List.mem_cons_of_mem d h)
      have htail : a' ++ '.' :: r1 = b' ++ '.' :: r2 := by
        have := congrArg List.tail he
        simpa using this
      obtain ⟨h1, h2⟩ := ih b' r1 r2 ha' hb' htail
      exact ⟨by rw [hcd, h1], h2⟩

theorem joinDots_inj :
    ∀ (xs ys : List Str),
      (∀ s ∈ xs, s ≠ [] ∧ '.' ∉ s) → (∀ s ∈ ys, s ≠ [] ∧ '.' ∉ s) →
      joinDots xs = joinDots ys → xs = ys := by
  intro xs
  induction xs with
  | nil =>
    intro ys _ hy he
    cases ys with
    | nil => rfl
    | cons b ys' =>
      exfalso
      obtain ⟨hb, _⟩ := hy b (List.mem_cons_self b ys')
      obtain ⟨t, ht⟩ := joinDots_cons_exists b ys'
      rw [joinDots, ht] at he
      exact hb (by cases b with
        | nil => rfl
        | cons c b' => exact absurd he.symm (by simp))
  | cons a xs' ih =>
    intro ys hx hy he
    cases ys with
    | nil =>
      exfalso
      obtain ⟨ha, _⟩ := hx a (List.mem_cons_self a xs')
      obtain ⟨t, ht⟩ := joinDots_cons_exists a xs'
      rw [joinDots, ht] at he
      exact ha (by cases a with
        | nil => rfl
        | cons c a' => exact absurd he (by simp))
    | cons b ys' =>
      obtain ⟨ha, had⟩ := hx a (List.mem_cons_self a xs')
      obtain ⟨hb, hbd⟩ := hy b (List.mem_cons_self b ys')
      cases xs' with
      | nil =>
        cases ys' with
        | nil =>
          have : a = b := by simpa [joinDots] using he
          rw [this]
        | cons y t =>
          exfalso
          rw [show joinDots [a] = a from rfl,
              show joinDots (b :: y :: t) = b ++ '.' :: joinDots (y :: t) from rfl] at he
          exact had (he ▸ List.mem_append_right b (List.mem_cons_self '.' _))
      | cons x t =>
        cases ys' with
        | nil =>
          exfalso
          rw [show joinDots (a :: x :: t) = a ++ '.' :: joinDots (x :: t) from rfl,
              show joinDots [b] = b from rfl] at he
          exact hbd (he ▸ List.mem_append_right a (List.mem_cons_self '.' _))
        | cons y t' =>
          rw [show joinDots (a :: x :: t) = a ++ '.' :: joinDots (x :: t) from rfl,
              show joinDots (b :: y :: t') = b ++ '.' :: joinDots (y :: t') from rfl] at he
          obtain ⟨hab, hjoin⟩ := append_dot_inj a b _ _ had hbd he
          have hx' : ∀ s ∈ x :: t, s ≠ [] ∧ '.' ∉ s :=
            fun s hs => hx s (List.mem_cons_of_mem a hs)
          have hy' : ∀ s ∈ y :: t', s ≠ [] ∧ '.' ∉ s :=
            fun s hs => hy s (List.mem_cons_of_mem b hs)
          have := ih (y :: t') hx' hy' hjoin
          rw [hab, this]

theorem allGoodB_spec (l : List Str) (h : allGoodB l = true) :
    ∀ s ∈ l, s ≠ [] ∧ '.' ∉ s := by
  intro s hs
  rw [allGoodB, List.all_eq_true] at h
  have := h s hs
  rw [Bool.and_eq_true] at this
  constructor
  · intro hnil
    rw [hnil] at this
    simp at this
  · intro hdot
    have hc : s.contains '.' = true := by
      simpa [List.contains] using List.elem_eq_true_of_mem hdot
    rw [hc] at this
    simp at this

/-! ## Lemmas about the name ordering -/

theorem strLe_total : ∀ a b : Str, strLe a b = true ∨ strLe b a = true := by
  intro a
  induction a with
  | nil => intro b; left; rfl
  | cons c as ih =>
    intro b
    cases b with
    | nil => right; rfl
    | cons d bs =>
      rcases lt_trichotomy c d with h | h | h
      · left; simp [strLe, h]
      · rcases ih bs with ht | ht
        · left; simp [strLe, h, lt_irrefl, ht]
        · right; simp [strLe, h.symm, lt_irrefl, ht]
      · right; simp [strLe, h]

theorem strLe_trans :
    ∀ a b c : Str, strLe a b = true → strLe b c = true → strLe a c = true := by
  intro a
  induction a with
  | nil => intro b c _ _; rfl
  | cons x as ih =>
    intro b c hab hbc
    cases b with
    | nil => simp [strLe] at hab
    | cons y bs =>
      cases c with
      | nil => simp [strLe] at hbc
      | cons z cs =>
        rw [strLe] at hab hbc ⊢
        by_cases hxy : x < y
        · by_cases hyz : y < z
          · simp [lt_trans hxy hyz]
          · rw [if_neg hyz] at hbc
            by_cases hyz' : y = z
            · simp [hyz' ▸ hxy]
            · simp [hyz'] at hbc
        · rw [if_neg hxy] at hab
          by_cases hxy' : x = y
          · rw [if_pos hxy'] at hab
            by_cases hyz : y < z
            · simp [hxy' ▸ hyz]
            · rw [if_neg hyz] at hbc
              by_cases hyz' : y = z
              · have hxz : x = z := hxy'.trans hyz'
                have hxz' : ¬ x < z := by rw [hxz]; exact lt_irrefl z
                rw [if_neg hxz', if_pos hxz]
                rw [if_pos hyz'] at hbc
                exact ih bs cs hab hbc
              · simp [hyz'] at hbc
          · simp [hxy'] at hab

theorem getmembers_name_sorted {α : Type} (m : PyModule α) (pred : α → Bool) :
    (getmembers m pred).Pairwise keyLe := by
  haveI : IsTotal (Str × α) keyLe := ⟨fun a b => strLe_total a.1 b.1⟩
  haveI : IsTrans (Str × α) keyLe := ⟨fun a b c hab hbc => strLe_trans a.1 b.1 c.1 hab hbc⟩
  exact List.sorted_insertionSort keyLe _

theorem generatePackagePath_eq_joinDots (dirSegs : List Str) (stem : Str)
    (hg : allGoodB (dirSegs ++ [stem]) = true)
    (hsp : firstMatchSplit sitePackagesDot (joinDots (dirSegs ++ [stem])) = none) :
    generatePackagePath dirSegs (stem ++ pyExt) = joinDots (dirSegs ++ [stem]) := by
  have hg' := allGoodB_spec _ hg
  have hstem : stem ≠ [] :=
    (hg' stem (List.mem_append_right dirSegs (List.mem_cons_self stem []))).1
  simp only [generatePackagePath]
  rw [stemOf_append_pyExt stem hstem]
  rw [dropWhile_dots_joinDots (dirSegs ++ [stem]) (by simp) hg']
  rw [pySplit_of_no_match _ _ hsp]
  rfl

/-! ## Claim theorems -/

/-- C1: the claim states that a subdirectory failing `dirAllowed`
(private-marker-prefixed or failing the directory-inclusion pattern) is
never traversed and contributes no ModulePath.  The code violates this:
the `for` loop never consumes the chained, filtered subdirectory walks,
`os.walk`'s own recursion is never pruned, and the per-directory skip
tests `endswith(("__", "."))` rather than the private-marker prefix
rule.  Evaluating the embedded discovery at the failing input — a root
`pkg` whose only subdirectory `__private` starts with the private marker
and fails `_is_acceptable_package_subdirectory` — yields the ModulePath
`pkg.__private.plugin` from a file beneath that subdirectory, instead of
the empty set the claim requires. -/
theorem c1_private_subdirectory_file_contributes :
    generatePackagesPathsFromModule (fun _ => true) []
      (.mk "pkg".data [] [.mk "__private".data ["plugin.py".data] []])
      = ["pkg.__private.plugin".data]
    ∧ isAcceptablePackageSubdirectory (fun _ => true) "__private".data = false := by
  constructor
  · decide
  · decide

/-- C2: the module's typing import does not include `Optional`, yet the
definition-time evaluation of `load_subclasses`'s signature reads
`Optional`; executing the module top level therefore raises `NameError`
on the name `Optional`, so importing `loadit.plugins_loader` fails and
no public operation is reachable. -/
theorem c2_import_raises_nameError_on_Optional :
    importPluginsLoaderModule = .error "Optional".data
    ∧ "Optional".data ∉ typingImportNames
    ∧ "Optional".data ∈ loadSubclassesDefRefs := by
  refine ⟨rfl, ?_, ?_⟩
  · decide
  · decide

/-- C3 counterexample: duplicate suppression is not performed by
identity.  Two modules export distinct objects (different identities
`1` and `2`) that compare equal under `__eq__` (same `eqKey`); the
code's `in`-based suppression keeps only the first, whereas
identity-based suppression — the claim as stated — would keep both. -/
theorem c3_counterexample_equality_not_identity :
    loadPluginsGo pyObjEq (fun _ => true)
      [.loaded ⟨[("x".data, ⟨1, 7⟩)]⟩, .loaded ⟨[("y".data, ⟨2, 7⟩)]⟩] [] []
      = .ok ([⟨1, 7⟩], [])
    ∧ identityDedupFirst (memberStream (fun _ => true)
        [.loaded ⟨[("x".data, ⟨1, 7⟩)]⟩, .loaded ⟨[("y".data, ⟨2, 7⟩)]⟩])
      = [⟨1, 7⟩, ⟨2, 7⟩]
    ∧ (⟨1, 7⟩ : PyObj).id ≠ (⟨2, 7⟩ : PyObj).id := by
  refine ⟨rfl, rfl, ?_⟩
  decide

/-- C3 amended: on every completed sweep the result indeed contains no
two entries that are the same underlying object (pairwise distinct
identities), and duplicate suppression avoids hashing — but it is the
Python `in` test, i.e. equality comparison with an identity
short-circuit, applied to the flat member stream in first-seen order
(so distinct-but-equal symbols are also collapsed). -/
theorem c3_amended_result_identity_distinct (pred : PyObj → Bool)
    (rs : List (LoadResult PyObj)) (hc : sweepCompletes rs = true)
    (p : List PyObj) (m : List Str)
    (h : loadPluginsGo pyObjEq pred rs [] [] = .ok (p, m)) :
    p.Pairwise (fun a b => a.id ≠ b.id)
    ∧ p = dedupFoldl pyObjEq (memberStream pred rs) := by
  have hk := loadPluginsGo_eq_ok pyObjEq pred rs [] [] hc
  have hpe := h.symm.trans hk
  rw [Except.ok.injEq, Prod.mk.injEq] at hpe
  obtain ⟨hp, -⟩ := hpe
  constructor
  · have hpw := foldl_insertPlugin_pairwise pyObjEq (memberStream pred rs) []
      (List.Pairwise.nil)
    rw [← hp] at hpw
    refine hpw.imp ?_
    intro a b hf hid
    rw [pyObjEq, hid] at hf
    simp at hf
  · exact hp

/-- C3 witness: the amended statement at a concrete completed sweep. -/
theorem c3_amended_witness :
    ([⟨1, 7⟩] : List PyObj).Pairwise (fun a b => a.id ≠ b.id)
    ∧ ([⟨1, 7⟩] : List PyObj)
        = dedupFoldl pyObjEq (memberStream (fun _ => true)
            [.loaded ⟨[("x".data, ⟨1, 7⟩)]⟩, .loaded ⟨[("y".data, ⟨2, 7⟩)]⟩]) :=
  c3_amended_result_identity_distinct (fun _ => true)
    [.loaded ⟨[("x".data, ⟨1, 7⟩)]⟩, .loaded ⟨[("y".data, ⟨2, 7⟩)]⟩]
    (by decide) [⟨1, 7⟩] [] rfl

/-- C4 counterexample: ModulePath derivation is not injective.  The
relative paths `venv/site-packages/pkg/mod.py` and `pkg/mod.py` are
distinct, yet both derive the ModulePath `pkg.mod`, because everything
up to and including the `site-packages.` marker is discarded (the
collapse the spec itself prescribes for vendored copies). -/
theorem c4_counterexample_not_injective :
    ((["venv".data, "site-packages".data, "pkg".data], "mod.py".data)
        : List Str × Str)
      ≠ (["pkg".data], "mod.py".data)
    ∧ generatePackagePath ["venv".data, "site-packages".data, "pkg".data]
        "mod.py".data
      = generatePackagePath ["pkg".data] "mod.py".data := by
  constructor
  · decide
  · decide

/-- C4 amended: derivation is injective on relative paths whose segments
are nonempty and contain no `'.'` character and whose dotted join does
not contain the `site-packages.` marker; paths outside this domain
(vendored `site-packages` prefixes, leading `..`/`.` segments, dots
inside names) may collapse, as the counterexample shows.  Files are
`stem + ".py"` as guaranteed by `fileAllowed` for every discovered
file. -/
theorem c4_amended_injective_without_marker (dx dy : List Str) (sx sy : Str)
    (hgx : allGoodB (dx ++ [sx]) = true) (hgy : allGoodB (dy ++ [sy]) = true)
    (hmx : firstMatchSplit sitePackagesDot (joinDots (dx ++ [sx])) = none)
    (hmy : firstMatchSplit sitePackagesDot (joinDots (dy ++ [sy])) = none)
    (hne : dx ++ [sx] ≠ dy ++ [sy]) :
    generatePackagePath dx (sx ++ pyExt) ≠ generatePackagePath dy (sy ++ pyExt) := by
  rw [generatePackagePath_eq_joinDots dx sx hgx hmx,
      generatePackagePath_eq_joinDots dy sy hgy hmy]
  intro he
  exact hne (joinDots_inj _ _ (allGoodB_spec _ hgx) (allGoodB_spec _ hgy) he)

/-- C4 witness: the amended injectivity at two concrete marker-free
paths. -/
theorem c4_amended_witness :
    generatePackagePath ["pkg".data] ("mod".data ++ pyExt)
      ≠ generatePackagePath ["pkg".data] ("other".data ++ pyExt) :=
  c4_amended_injective_without_marker ["pkg".data] ["pkg".data]
    "mod".data "other".data
    (by decide) (by decide) (by decide) (by decide) (by decide)

/-- C5: with raise-on-missing configured, if the sweep completes (no
fatal re-raise) and at least one module failed with a named missing
dependency, the operation returns a single aggregate fatal error — and
no `.ok` result, hence no partial result — whose message is built from
the deduplicated, insertion-ordered missing set collected over the
whole sweep, and which names (contains) every missing dependency. -/
theorem c5_raise_on_missing_aggregate_error {α : Type}
    (eqB : α → α → Bool) (pred : α → Bool) (rs : List (LoadResult α))
    (hc : sweepCompletes rs = true) (hf : failNames rs ≠ []) :
    loadPlugins eqB true pred rs
      = .error (.aggregateMissing (warningMessage (dedupFirstStr (failNames rs))))
    ∧ ∀ n ∈ failNames rs,
        containsSub n (warningMessage (dedupFirstStr (failNames rs))) = true := by
  have hk := loadPluginsGo_eq_ok eqB pred rs [] [] hc
  have hmne : dedupFirstStr (failNames rs) ≠ [] := dedupFirstStr_ne_nil _ hf
  constructor
  · rw [loadPlugins, hk]
    have hd : (failNames rs).foldl insertNewStr [] = dedupFirstStr (failNames rs) := rfl
    rw [hd]
    simp [hmne]
  · intro n hn
    exact containsSub_warningMessage _ n ((mem_dedupFirstStr _ n).mpr hn)

/-- C5 witness: the aggregate error at a concrete sweep with repeated
missing names (`foo`, `bar`, `foo` again), showing deduplication and
that the message names both. -/
theorem c5_witness :
    loadPlugins pyObjEq true (fun _ => true)
      ([.importError (some "foo".data), .importError (some "bar".data),
        .importError (some "foo".data)] : List (LoadResult PyObj))
      = .error (.aggregateMissing (warningMessage (dedupFirstStr (failNames
          ([.importError (some "foo".data), .importError (some "bar".data),
            .importError (some "foo".data)] : List (LoadResult PyObj))))))
    ∧ ∀ n ∈ failNames
        ([.importError (some "foo".data), .importError (some "bar".data),
          .importError (some "foo".data)] : List (LoadResult PyObj)),
        containsSub n (warningMessage (dedupFirstStr (failNames
          ([.importError (some "foo".data), .importError (some "bar".data),
            .importError (some "foo".data)] : List (LoadResult PyObj))))) = true :=
  c5_raise_on_missing_aggregate_error pyObjEq (fun _ => true) _
    (by decide) (by decide)

/-- C6: without raise-on-missing, a sweep whose only failure is one
module with missing dependency `foo` succeeds, returns exactly the
plugins of the remaining modules, and emits exactly one warning whose
text mentions `foo`; moreover, on any completed sweep the collected
missing set is the deduplicated, insertion-ordered list of the failure
names. -/
theorem c6_single_missing_warns_and_returns_rest {α : Type}
    (eqB : α → α → Bool) (pred : α → Bool)
    (pre post : List (LoadResult α)) (foo : Str)
    (hpre : pre.all isLoadedB = true) (hpost : post.all isLoadedB = true)
    (hfoo : foo ≠ []) :
    ∃ plugins,
      loadPlugins eqB false pred (pre ++ .importError (some foo) :: post)
        = .ok (plugins, [warningMessage [foo]])
      ∧ loadPlugins eqB false pred (pre ++ post) = .ok (plugins, [])
      ∧ containsSub foo (warningMessage [foo]) = true
      ∧ ∀ rs : List (LoadResult α), sweepCompletes rs = true →
          ∃ ps, loadPluginsGo eqB pred rs [] []
              = .ok (ps, dedupFirstStr (failNames rs)) := by
  have h1 := sweepCompletes_of_all_loaded pre hpre
  have h2 := sweepCompletes_of_all_loaded post hpost
  refine ⟨(memberStream pred (pre ++ post)).foldl (insertPlugin eqB) [],
    ?_, ?_, ?_, ?_⟩
  · have hcomp : sweepCompletes (pre ++ .importError (some foo) :: post) = true := by
      rw [sweepCompletes] at h1 h2
      rw [sweepCompletes, List.all_append, List.all_cons, h1, h2]
      simp [isFatal, List.isEmpty_iff, hfoo]
    have hk := loadPluginsGo_eq_ok eqB pred _ [] [] hcomp
    have hfn : failNames (pre ++ .importError (some foo) :: post) = [foo] := by
      rw [failNames_append, failNames_nil_of_all_loaded pre hpre,
          failNames_importError_cons foo hfoo,
          failNames_nil_of_all_loaded post hpost]
      rfl
    have hms : memberStream pred (pre ++ .importError (some foo) :: post)
        = memberStream pred (pre ++ post) := by
      rw [memberStream_append, memberStream_importError_cons, ← memberStream_append]
    rw [hfn, hms] at hk
    rw [loadPlugins, hk]
    have hone : ([foo] : List Str).foldl insertNewStr [] = [foo] := by
      simp [insertNewStr]
    rw [hone]
    simp
  · have hcomp2 : sweepCompletes (pre ++ post) = true := by
      rw [sweepCompletes] at h1 h2
      rw [sweepCompletes, List.all_append, h1, h2]
      rfl
    have hk2 := loadPluginsGo_eq_ok eqB pred _ [] [] hcomp2
    have hfn2 : failNames (pre ++ post) = [] := by
      rw [failNames_append, failNames_nil_of_all_loaded pre hpre,
          failNames_nil_of_all_loaded post hpost]
      rfl
    rw [hfn2] at hk2
    rw [loadPlugins, hk2]
    simp
  · exact containsSub_warningMessage [foo] foo (List.mem_singleton_self foo)
  · intro rs hc
    exact ⟨_, loadPluginsGo_eq_ok eqB pred rs [] [] hc⟩

/-- C6 witness: the statement at a concrete sweep — one loaded module
before, one after, one failure named `foo` in between. -/
theorem c6_witness :
    ∃ plugins,
      loadPlugins pyObjEq false (fun _ => true)
        ([.loaded ⟨[("x".data, ⟨1, 7⟩)]⟩]
          ++ .importError (some "foo".data) :: [.loaded ⟨[("y".data, ⟨2, 9⟩)]⟩])
        = .ok (plugins, [warningMessage ["foo".data]])
      ∧ loadPlugins pyObjEq false (fun _ => true)
          ([.loaded ⟨[("x".data, ⟨1, 7⟩)]⟩] ++ [.loaded ⟨[("y".data, ⟨2, 9⟩)]⟩])
        = .ok (plugins, [])
      ∧ containsSub "foo".data (warningMessage ["foo".data]) = true
      ∧ ∀ rs : List (LoadResult PyObj), sweepCompletes rs = true →
          ∃ ps, loadPluginsGo pyObjEq (fun _ => true) rs [] []
              = .ok (ps, dedupFirstStr (failNames rs)) :=
  c6_single_missing_warns_and_returns_rest pyObjEq (fun _ => true)
    [.loaded ⟨[("x".data, ⟨1, 7⟩)]⟩] [.loaded ⟨[("y".data, ⟨2, 9⟩)]⟩]
    "foo".data (by decide) (by decide) (by decide)

/-- C7: per-module failure policy of the sweep.  A failure carrying an
identifiable (truthy) dependency name records the name — deduplicated,
in insertion order — and the sweep continues with the remaining
modules; a failure whose `name` is falsy (`None` or empty) is re-raised
immediately, aborting the sweep regardless of what follows. -/
theorem c7_record_and_continue_or_reraise {α : Type}
    (eqB : α → α → Bool) (pred : α → Bool) :
    (∀ (pre post : List (LoadResult α)) (n : Str) (p : List α) (m : List Str),
       n ≠ [] →
       loadPluginsGo eqB pred pre [] [] = .ok (p, m) →
       loadPluginsGo eqB pred (pre ++ .importError (some n) :: post) [] []
         = loadPluginsGo eqB pred post p (insertNewStr m n))
    ∧ (∀ (pre post : List (LoadResult α)) (nOpt : Option Str)
         (p : List α) (m : List Str),
       nOpt = none ∨ nOpt = some [] →
       loadPluginsGo eqB pred pre [] [] = .ok (p, m) →
       loadPluginsGo eqB pred (pre ++ .importError nOpt :: post) [] []
         = .error (.reraisedImportError nOpt)) := by
  constructor
  · intro pre post n p m hn hpre
    rw [loadPluginsGo_append, hpre]
    simp [Except.bind, loadPluginsGo, hn]
  · intro pre post nOpt p m hopt hpre
    rw [loadPluginsGo_append, hpre]
    rcases hopt with rfl | rfl
    · simp [Except.bind, loadPluginsGo]
    · simp [Except.bind, loadPluginsGo]

/-- C7 witness: both halves at concrete sweeps — a named failure
continues into the following module; a nameless failure aborts even
though a loadable module follows. -/
theorem c7_witness :
    loadPluginsGo pyObjEq (fun _ => true)
      ([] ++ .importError (some "foo".data) :: [.loaded ⟨[("y".data, ⟨2, 9⟩)]⟩]) [] []
      = loadPluginsGo pyObjEq (fun _ => true)
          [.loaded ⟨[("y".data, ⟨2, 9⟩)]⟩] [] (insertNewStr [] "foo".data)
    ∧ loadPluginsGo pyObjEq (fun _ => true)
        ([] ++ .importError none :: [.loaded ⟨[("y".data, ⟨2, 9⟩)]⟩]) [] []
      = .error (.reraisedImportError none) :=
  ⟨(c7_record_and_continue_or_reraise pyObjEq (fun _ => true)).1
      [] [.loaded ⟨[("y".data, ⟨2, 9⟩)]⟩] "foo".data [] [] (by decide) rfl,
   (c7_record_and_continue_or_reraise pyObjEq (fun _ => true)).2
      [] [.loaded ⟨[("y".data, ⟨2, 9⟩)]⟩] none [] [] (Or.inl rfl) rfl⟩

/-- C8: the built-in subclass predicate accepts a class `k` against
ancestor `j` iff `k` is not `j` itself and `j` is among `k`'s
ancestors, and rejects every non-class value; consequently a sweep over
modules exporting `A`, `B(A)` and `A`, `C(B)` returns `B` and `C` and
excludes the re-exported ancestor `A`. -/
theorem c8_subclass_predicate_strict_descendants :
    (∀ k j : KCls, isMemberSubclassOfAncestor (.cls k) (.cls j)
        = (decide (k ≠ j) && (clsAncestors k).contains j))
    ∧ (∀ (o : PyObj) (a : PVal), isMemberSubclassOfAncestor (.obj o) a = false)
    ∧ loadPluginsGo pvalEq (fun v => isMemberSubclassOfAncestor v (.cls .A))
        [.loaded ⟨[("A".data, .cls .A), ("B".data, .cls .B)]⟩,
         .loaded ⟨[("A".data, .cls .A), ("C".data, .cls .C)]⟩] [] []
      = .ok ([.cls .B, .cls .C], []) := by
  refine ⟨?_, ?_, rfl⟩
  · intro k j
    cases k <;> cases j <;> rfl
  · intro o a
    simp [isMemberSubclassOfAncestor, pvalIsClass]

/-- C9: on every completed sweep, the returned plugin list is exactly
the first-seen-order deduplication of the flat member stream (modules
in processing order, each contributing its filtered members), and it is
a sublist of that stream — so each entry sits at the position of its
first encounter and later sightings change nothing. -/
theorem c9_result_is_first_seen_order {α : Type}
    (eqB : α → α → Bool) (pred : α → Bool) (rs : List (LoadResult α))
    (hc : sweepCompletes rs = true) (p : List α) (m : List Str)
    (h : loadPluginsGo eqB pred rs [] [] = .ok (p, m)) :
    p = dedupFoldl eqB (memberStream pred rs)
    ∧ p.Sublist (memberStream pred rs) := by
  have hk := loadPluginsGo_eq_ok eqB pred rs [] [] hc
  have hpe := h.symm.trans hk
  rw [Except.ok.injEq, Prod.mk.injEq] at hpe
  obtain ⟨hp, -⟩ := hpe
  refine ⟨hp, ?_⟩
  obtain ⟨u, hu, hsub⟩ := foldl_insertPlugin_sublist eqB (memberStream pred rs) []
  rw [List.nil_append] at hu
  rw [hp, hu]
  exact hsub

/-- C9 witness: a concrete sweep where the same object reappears in a
later module and keeps its first position. -/
theorem c9_witness :
    ([⟨1, 7⟩] : List PyObj)
      = dedupFoldl pyObjEq (memberStream (fun _ => true)
          [.loaded ⟨[("x".data, ⟨1, 7⟩)]⟩, .loaded ⟨[("y".data, ⟨1, 7⟩)]⟩])
    ∧ ([⟨1, 7⟩] : List PyObj).Sublist (memberStream (fun _ => true)
        [.loaded ⟨[("x".data, ⟨1, 7⟩)]⟩, .loaded ⟨[("y".data, ⟨1, 7⟩)]⟩]) :=
  c9_result_is_first_seen_order pyObjEq (fun _ => true)
    [.loaded ⟨[("x".data, ⟨1, 7⟩)]⟩, .loaded ⟨[("y".data, ⟨1, 7⟩)]⟩]
    (by decide) [⟨1, 7⟩] [] rfl

/-- C10: within one module, matching symbols enter the result in
ascending alphabetical (code-point) order of their attribute names —
`inspect.getmembers` sorts by name — not in definition order: a module
defining `b` before `a` contributes the value bound to `a` first. -/
theorem c10_members_sorted_by_name_not_definition_order :
    (∀ (α : Type) (m : PyModule α) (pred : α → Bool),
        (getmembers m pred).Pairwise keyLe)
    ∧ getmembers (⟨[("b".data, (⟨1, 1⟩ : PyObj)), ("a".data, ⟨2, 2⟩)]⟩ : PyModule PyObj)
        (fun _ => true)
      = [("a".data, ⟨2, 2⟩), ("b".data, ⟨1, 1⟩)]
    ∧ loadPluginsGo pyObjEq (fun _ => true)
        [.loaded ⟨[("b".data, ⟨1, 1⟩), ("a".data, ⟨2, 2⟩)]⟩] [] []
      = .ok ([⟨2, 2⟩, ⟨1, 1⟩], []) :=
  ⟨fun _ m pred => getmembers_name_sorted m pred, rfl, rfl⟩

end Loadit
